import Mathlib

/-!
Shallow embedding of the rust-dpi desync engine (src/packets.rs and the
desync-related parts of src/main.rs).  Byte buffers are `List Nat` whose
entries stand for `u8` values (< 256); machine arithmetic that the source
performs on `u16` is made explicit with `% 65536` / `% 256`.  Rust code
that can panic is embedded as an `Option`-returning function where `none`
is the panic.  Socket writes, flushes, TTL changes and out-of-band sends
are recorded as an explicit event trace.
-/

namespace RustDpi

/-- `buffer[a..b]` on a Rust slice: the bytes at indices `a ≤ i < b`. -/
def listSlice (l : List Nat) (a b : Nat) : List Nat :=
  (l.drop a).take (b - a)

/-- First index at which `needle` occurs as a contiguous sub-list of the
haystack; models both `memmem::find` (src/packets.rs line 8) and Rust
`str::find` on ASCII strings (line 23).  Returns the first match. -/
def findSub (needle : List Nat) : List Nat → Option Nat
  | [] => if needle.isEmpty then some 0 else none
  | a :: rest =>
    if needle.isPrefixOf (a :: rest) then some 0
    else (findSub needle rest).map (· + 1)

/-- Index of the first byte that is not an ASCII space, if any; models the
`for ch in str[idx..].chars()` loop of src/packets.rs lines 25-31 (each
skipped `' '` is one byte, so the char count equals the byte count). -/
def firstNonSpace : List Nat → Option Nat
  | [] => none
  | b :: rest => if b = 32 then (firstNonSpace rest).map (· + 1) else some 0

/-- Is `b` a UTF-8 continuation byte (0x80..0xBF)? -/
def contByte (b : Nat) : Bool := 0x80 ≤ b && b ≤ 0xBF

/-- The ranges the continuation bytes of a UTF-8 leading byte `b` must
lie in (RFC 3629): `none` for an illegal leading byte, otherwise one
`(lo, hi)` pair per expected continuation byte.  The first continuation
byte is range-restricted after 0xE0, 0xED, 0xF0 and 0xF4, which rules
out overlong encodings, surrogates and code points above 0x10FFFF. -/
def contRanges (b : Nat) : Option (List (Nat × Nat)) :=
  if b ≤ 0x7F then some []
  else if 0xC2 ≤ b ∧ b ≤ 0xDF then some [(0x80, 0xBF)]
  else if b = 0xE0 then some [(0xA0, 0xBF), (0x80, 0xBF)]
  else if b = 0xED then some [(0x80, 0x9F), (0x80, 0xBF)]
  else if 0xE1 ≤ b ∧ b ≤ 0xEF then some [(0x80, 0xBF), (0x80, 0xBF)]
  else if b = 0xF0 then some [(0x90, 0xBF), (0x80, 0xBF), (0x80, 0xBF)]
  else if 0xF1 ≤ b ∧ b ≤ 0xF3 then
    some [(0x80, 0xBF), (0x80, 0xBF), (0x80, 0xBF)]
  else if b = 0xF4 then some [(0x80, 0x8F), (0x80, 0xBF), (0x80, 0xBF)]
  else none

/-- One step per byte: `pending` holds the ranges the next bytes must lie
in; at a sequence boundary the next leading byte opens a new sequence. -/
def validUtf8Aux : List (Nat × Nat) → List Nat → Bool
  | [], [] => true
  | _ :: _, [] => false
  | [], b :: rest =>
    match contRanges b with
    | some rs => validUtf8Aux rs rest
    | none => false
  | (lo, hi) :: rs, b :: rest => lo ≤ b && b ≤ hi && validUtf8Aux rs rest

/-- UTF-8 validity of a byte sequence (RFC 3629), exactly the check that
Rust `str::from_utf8` performs (src/packets.rs line 21). -/
def validUtf8 (l : List Nat) : Bool := validUtf8Aux [] l

/-- ASCII-range lowercase of one byte. Rust `String::to_lowercase`
(src/packets.rs line 22) agrees with mapping this over the bytes whenever
the string is ASCII; every theorem below about the valid-UTF-8 path of
`isHttp` is restricted to ASCII buffers, where this rendering is exact
(on non-ASCII text `to_lowercase` can change byte lengths, which the
byte-level model does not reproduce). -/
def asciiLower (b : Nat) : Nat := if 65 ≤ b ∧ b ≤ 90 then b + 32 else b

/-- The nine HTTP method names of src/packets.rs lines 15-18, as ASCII
bytes, in source order. -/
def httpMethods : List (List Nat) :=
  [ [72, 69, 65, 68],                    -- HEAD
    [71, 69, 84],                        -- GET
    [80, 79, 83, 84],                    -- POST
    [80, 85, 84],                        -- PUT
    [68, 69, 76, 69, 84, 69],            -- DELETE
    [79, 80, 84, 73, 79, 78, 83],        -- OPTIONS
    [67, 79, 78, 78, 69, 67, 84],        -- CONNECT
    [84, 82, 65, 67, 69],                -- TRACE
    [80, 65, 84, 67, 72] ]               -- PATCH

/-- The bytes of `"\nhost:"`, the needle of src/packets.rs line 23. -/
def nhostBytes : List Nat := [10, 104, 111, 115, 116, 58]

/-- `is_tls_hello` of src/packets.rs lines 4-12.  Note that the
`memmem::find` on line 8 scans the whole buffer from index 0, not only
the part after the header. -/
def isTlsHello (buffer : List Nat) : Option Nat :=
  if 5 < buffer.length ∧ buffer.take 2 = [0x16, 0x03] ∧ buffer.getD 5 0 = 0x01
  then (findSub [0, 0] buffer).map (· + 9)
  else none

/-- `is_http` of src/packets.rs lines 14-37.  The outer `Option` is panic
(`none` = the `str::from_utf8(buffer).unwrap()` on line 21 panics); the
inner `Option` is the function's return value.  The source loops over the
method names and runs the body for the first name that prefixes the
buffer; since the body does not depend on which name matched, this is
`List.any`.  The body is rendered byte-level (`asciiLower`, `findSub`,
`firstNonSpace`), which coincides with the source's `String` operations
exactly when the buffer is ASCII. -/
def isHttp (buffer : List Nat) : Option (Option Nat) :=
  if httpMethods.any (fun m => m.isPrefixOf buffer) then
    if validUtf8 buffer then
      match (findSub nhostBytes (buffer.map asciiLower)).map (· + 6) with
      | some idx =>
        match firstNonSpace (buffer.drop idx) with
        | some off => some (some (idx + off))
        | none => some none
      | none => some none
    else none
  else some none

/-- `htons` of src/packets.rs lines 57-59, on a `u16` value. -/
def htons (v : Nat) : Nat :=
  ((v % 65536) % 256) * 256 + (v % 65536) / 256

/-- `convert_u16_to_two_u8s_be` of src/packets.rs lines 61-63:
`[integer as u8, (integer >> 8) as u8]`. -/
def convertU16 (i : Nat) : List Nat := [i % 256, (i / 256) % 256]

/-- `u16` wrapping subtraction, the release-build semantics of the
`r_sz - pos as u16` on src/packets.rs line 49 (a debug build would panic
on underflow; no theorem below depends on the underflow case). -/
def wrappingSub16 (a b : Nat) : Nat := (a % 65536 + 65536 - b % 65536) % 65536

/-- `part_tls` of src/packets.rs lines 39-55.  `none` is a panic: the
indexing `buffer[3]`/`buffer[4]` on line 40 panics when the buffer is
shorter than 5, and `split_off(5 + pos)` on line 44 panics when
`5 + pos > buffer.len()`.  Otherwise the source splices a copy of header
bytes 0..3 plus a fresh big-endian length `R - pos` at `5 + pos`, and
rewrites the original length field to `pos`. -/
def partTls (buffer : List Nat) (pos : Nat) : Option (List Nat) :=
  if buffer.length < 5 then none
  else
    let r_sz := 256 * (buffer.getD 3 0 % 256) + buffer.getD 4 0 % 256
    if buffer.length < 5 + pos then none
    else
      let vec1 := buffer.take 3
      let v := buffer.drop (5 + pos)
      let b1 := buffer.take (5 + pos) ++ vec1 ++ v
      let v2 := b1.drop (8 + pos)
      let b2 := b1.take (8 + pos)
        ++ convertU16 (htons (wrappingSub16 r_sz (pos % 65536))) ++ v2
      let vec2 := convertU16 (htons (pos % 65536))
      some ((b2.set 3 (vec2.getD 0 0)).set 4 (vec2.getD 1 0))

/-- `Flag` of src/main.rs lines 236-240. -/
inductive Flag where
  | offsetSni : Flag
  | offsetHost : Flag
deriving DecidableEq, Repr

/-- `Part` of src/main.rs lines 258-262. -/
structure Part where
  pos : Nat
  flag : Option Flag
deriving DecidableEq, Repr

/-- `Method` of src/main.rs lines 242-247. -/
inductive Method where
  | split : Part → Method
  | disorder : Part → Method
  | oob : Part → Method
deriving DecidableEq, Repr

/-- `method_part` of src/main.rs lines 249-256. -/
def methodPart : Method → Part
  | .split p => p
  | .disorder p => p
  | .oob p => p

/-- `Params` of src/main.rs lines 230-234. -/
structure Params where
  tlsrec : Option Part
  methods : List Method

/-- One observable socket action of the desync phase. -/
inductive Ev where
  | write : List Nat → Ev
  | flush : Ev
  | setTtl : Nat → Ev
  | oob : List Nat → Ev
deriving DecidableEq, Repr

/-- One iteration body of the desync loop (src/main.rs lines 202-221):
the method's action on `buffer[offset..pos]` (or `[offset..pos+1]` for
OOB).  Returns the buffer after the iteration and the emitted events.
`ttl` is the socket TTL read by `tcp_stream.ttl()` in the DISORDER arm;
every arm restores it, so it is threaded as a constant.  The OOB arm
saves `buffer[pos]`, overwrites it with `0x61`, sends, then restores
(lines 216-219). -/
def applyMethod (m : Method) (buf : List Nat) (off ttl : Nat) :
    List Nat × List Ev :=
  match m with
  | .split p => (buf, [.write (listSlice buf off p.pos), .flush])
  | .disorder p =>
    (buf, [.setTtl 1, .write (listSlice buf off p.pos), .flush, .setTtl ttl])
  | .oob p =>
    let ch := buf.getD p.pos 0
    let buf1 := buf.set p.pos 0x61
    (buf1.set p.pos ch, [.oob (listSlice buf1 off (p.pos + 1))])

/-- The method loop of `desync`, src/main.rs lines 196-223: starting from
`offset`, run each method in order; break as soon as `pos ≤ offset` or
`pos ≥ buffer.len()`.  Returns the final buffer, final offset, and the
event trace. -/
def desyncLoop (methods : List Method) (buf : List Nat) (off ttl : Nat) :
    List Nat × Nat × List Ev :=
  match methods with
  | [] => (buf, off, [])
  | m :: rest =>
    let pos := (methodPart m).pos
    if pos ≤ off ∨ buf.length ≤ pos then (buf, off, [])
    else
      let (buf1, evs) := applyMethod m buf off ttl
      let (buf2, off2, evs2) := desyncLoop rest buf1 pos ttl
      (buf2, off2, evs ++ evs2)

/-- The TLS-record stage of `desync`, src/main.rs lines 186-194: the
payload is first copied into a private buffer (lines 187-188); then, when
a tlsrec part is configured, `part_tls` is applied iff
`is_https && part.pos < buffer.len()` (line 191) — this is the only
guard the code checks.  `none` is a panic propagated from `part_tls`. -/
def tlsStage (bytes : List Nat) (params : Params) (isHttps : Bool) :
    Option (List Nat) :=
  match params.tlsrec with
  | some part =>
    if isHttps ∧ part.pos < bytes.length then partTls bytes part.pos
    else some bytes
  | none => some bytes

/-- `desync` of src/main.rs lines 186-228: TLS-record stage, then the
method loop, then the tail write `buffer[offset..]` when
`offset < buffer.len()` (lines 224-226).  Returns the final private
buffer and the event trace; `none` is a panic. -/
def desync (bytes : List Nat) (params : Params) (isHttps : Bool) (ttl : Nat) :
    Option (List Nat × List Ev) :=
  (tlsStage bytes params isHttps).bind fun buf =>
    let (buf1, off, evs) := desyncLoop params.methods buf 0 ttl
    if off < buf1.length then some (buf1, evs ++ [.write (buf1.drop off)])
    else some (buf1, evs)

/-- `desync_hello_phrase` of src/main.rs lines 162-184, given the bytes
`P` actually read (line 172).  Note line 174 uses the non-short-circuit
`|`, so `is_http` is always evaluated; a panic inside it (`none`)
propagates.  When neither classifier fires, the payload is written
verbatim; a final flush always follows (line 183). -/
def desyncHelloPhrase (p : List Nat) (params : Params) (ttl : Nat) :
    Option (List Ev) :=
  let isHttps := (isTlsHello p).isSome
  match isHttp p with
  | none => none
  | some httpRes =>
    if isHttps || httpRes.isSome then
      (desync p params isHttps ttl).map fun r => r.2 ++ [.flush]
    else some [.write p, .flush]

/-- Insert a method into a pos-descending list, after any entry of equal
`pos` (stability). -/
def insertDesc (m : Method) : List Method → List Method
  | [] => [m]
  | x :: xs =>
    if (methodPart x).pos ≤ (methodPart m).pos then m :: x :: xs
    else x :: insertDesc m xs

/-- Stable insertion sort by `pos` descending; the behaviour of
`methods.sort_by(|a, b| method_part(b).pos.cmp(&method_part(a).pos))`
on src/main.rs line 47 (Rust's `sort_by` is stable). -/
def sortMethodsDesc : List Method → List Method
  | [] => []
  | m :: rest => insertDesc m (sortMethodsDesc rest)

/-- The construction of the methods list in `main`, src/main.rs lines
34-47: collect the present `--disorder`, `--split`, `--oob` flags in that
order, then sort by `pos` descending. -/
def mkMethods (disorder split oob : Option Nat) : List Method :=
  sortMethodsDesc
    (([ disorder.map fun p => Method.disorder ⟨p, none⟩,
        split.map fun p => Method.split ⟨p, none⟩,
        oob.map fun p => Method.oob ⟨p, none⟩ ] : List (Option Method)).filterMap id)

end RustDpi

namespace RustDpi

/-! ### Helper lemmas -/

/-- Writing back the byte that was just read leaves the list unchanged. -/
lemma set_getD_self (l : List Nat) (i : Nat) : l.set i (l.getD i 0) = l := by
  induction l generalizing i with
  | nil => rfl
  | cons a t ih =>
    cases i with
    | zero => rfl
    | succ n => simpa [List.set] using ih n

/-- Every loop-iteration body returns the buffer it was given: SPLIT and
DISORDER do not touch it, and OOB restores the saved byte. -/
lemma applyMethod_fst (m : Method) (buf : List Nat) (off ttl : Nat) :
    (applyMethod m buf off ttl).1 = buf := by
  cases m with
  | split p => rfl
  | disorder p => rfl
  | oob p =>
    dsimp only [applyMethod]
    rw [List.set_set]
    exact set_getD_self buf p.pos

/-- The whole method loop returns the buffer it was given. -/
lemma desyncLoop_fst (ms : List Method) (buf : List Nat) (off ttl : Nat) :
    (desyncLoop ms buf off ttl).1 = buf := by
  induction ms generalizing buf off with
  | nil => rfl
  | cons m rest ih =>
    simp only [desyncLoop]
    split
    · rfl
    · rcases happ : applyMethod m buf off ttl with ⟨buf1, evs⟩
      rcases hrec : desyncLoop rest buf1 (methodPart m).pos ttl with ⟨buf2, off2, evs2⟩
      have h1 : buf1 = buf := by
        have := applyMethod_fst m buf off ttl
        rw [happ] at this
        exact this
      have h2 : buf2 = buf1 := by
        have := ih buf1 (methodPart m).pos
        rw [hrec] at this
        exact this
      simp [happ, hrec, h1, h2]

/-! ### C9 -/

/-- Claim C9: when the first payload is classified neither as a TLS
ClientHello nor as an HTTP request, the first-payload phase writes the
payload to the upstream socket byte-for-byte, followed by a flush. -/
theorem desyncHelloPhrase_passthrough (p : List Nat) (params : Params) (ttl : Nat)
    (htls : isTlsHello p = none) (hhttp : isHttp p = some none) :
    desyncHelloPhrase p params ttl = some [Ev.write p, Ev.flush] := by
  simp [desyncHelloPhrase, htls, hhttp]

theorem desyncHelloPhrase_passthrough_witness :
    isTlsHello [0] = none ∧ isHttp [0] = some none ∧
      desyncHelloPhrase [0] ⟨none, []⟩ 64 = some [Ev.write [0], Ev.flush] :=
  ⟨by decide, by decide,
    desyncHelloPhrase_passthrough [0] ⟨none, []⟩ 64 (by decide) (by decide)⟩

/-! ### C10 -/

/-- Claim C10: the desync emitter works on a private copy of the caller
payload and never net-mutates it: whenever `desync` returns, its final
working buffer equals the buffer produced by the TLS-record stage (the
OOB byte substitution is always reverted), and when no TLS record split
is configured the final buffer is exactly the input bytes.  The caller
slice itself is untouched by construction (`bytes.clone_into` on
src/main.rs line 188 copies it before any mutation). -/
theorem desync_buffer_restored (bytes : List Nat) (params : Params) (ih : Bool)
    (ttl : Nat) (out : List Nat) (evs : List Ev)
    (h : desync bytes params ih ttl = some (out, evs)) :
    tlsStage bytes params ih = some out ∧ (params.tlsrec = none → out = bytes) := by
  rcases hts : tlsStage bytes params ih with _ | buf
  · rw [desync, hts] at h
    simp at h
  · rw [desync, hts, Option.some_bind] at h
    rcases hloop : desyncLoop params.methods buf 0 ttl with ⟨buf1, off, evs'⟩
    have hb : buf1 = buf := by
      have := desyncLoop_fst params.methods buf 0 ttl
      rw [hloop] at this
      exact this
    rw [hloop] at h
    dsimp only at h
    have hout : out = buf := by
      split at h <;>
        · simp only [Option.some.injEq, Prod.mk.injEq] at h
          rw [← h.1, hb]
    constructor
    · rw [hout]
    · intro hnone
      simp only [tlsStage, hnone, Option.some.injEq] at hts
      rw [hout, ← hts]

theorem desync_buffer_restored_witness :
    desync [5] ⟨none, []⟩ false 64 = some ([5], [Ev.write [5]]) ∧
      tlsStage [5] ⟨none, []⟩ false = some [5] ∧ ([5] : List Nat) = [5] :=
  ⟨by decide,
    (desync_buffer_restored [5] ⟨none, []⟩ false 64 [5] [Ev.write [5]] (by decide)).1,
    (desync_buffer_restored [5] ⟨none, []⟩ false 64 [5] [Ev.write [5]] (by decide)).2 rfl⟩

/-! ### C2 -/

/-- Claim C2, counterexample: a 10-byte TLS ClientHello with record
length R = 5 and a configured tlsrec pos = 7 violates the splitter
precondition (pos is both at least R and at least len - 5), yet the split
is NOT skipped: the only guard in the code is pos < len (src/main.rs
line 191), so part_tls runs and its split_off(5 + pos) panics. -/
theorem tlsrec_out_of_range_panics :
    isTlsHello [0x16, 0x03, 0x01, 0x00, 0x05, 0x01, 0, 0, 0, 0] = some 15 ∧
      7 ≥ 256 * 0x00 + 0x05 ∧
      desync [0x16, 0x03, 0x01, 0x00, 0x05, 0x01, 0, 0, 0, 0]
        ⟨some ⟨7, none⟩, []⟩ true 64 = none := by
  refine ⟨by decide, by decide, by decide⟩

/-- Claim C2, amended: the TLS record split is skipped exactly when
tlsrec pos is at least len(P); in that case the emitter behaves as if no
tlsrec were configured, does not fail, does not panic, and the payload
is unchanged. -/
theorem tlsrec_skipped_iff_pos_ge_len (p : List Nat) (part : Part)
    (ms : List Method) (ttl : Nat) (hge : p.length ≤ part.pos) :
    desync p ⟨some part, ms⟩ true ttl = desync p ⟨none, ms⟩ true ttl ∧
      ∃ evs, desync p ⟨some part, ms⟩ true ttl = some (p, evs) := by
  have hstage : tlsStage p ⟨some part, ms⟩ true = some p := by
    simp only [tlsStage]
    rw [if_neg]
    simp only [true_and, not_lt]
    exact hge
  constructor
  · rw [desync, desync, hstage]
    rfl
  · rw [desync, hstage, Option.some_bind]
    rcases hloop : desyncLoop ms p 0 ttl with ⟨buf1, off, evs'⟩
    have hb : buf1 = p := by
      have := desyncLoop_fst ms p 0 ttl
      rw [hloop] at this
      exact this
    dsimp only
    split
    · exact ⟨_, by rw [hb]⟩
    · exact ⟨_, by rw [hb]⟩

theorem tlsrec_skipped_iff_pos_ge_len_witness :
    ([0x16, 0x03, 0x01, 0x00, 0x05, 0x01] : List Nat).length ≤ 9 ∧
      (desync [0x16, 0x03, 0x01, 0x00, 0x05, 0x01] ⟨some ⟨9, none⟩, []⟩ true 64
          = desync [0x16, 0x03, 0x01, 0x00, 0x05, 0x01] ⟨none, []⟩ true 64 ∧
        ∃ evs, desync [0x16, 0x03, 0x01, 0x00, 0x05, 0x01] ⟨some ⟨9, none⟩, []⟩ true 64
          = some ([0x16, 0x03, 0x01, 0x00, 0x05, 0x01], evs)) :=
  ⟨by decide, tlsrec_skipped_iff_pos_ge_len _ ⟨9, none⟩ [] 64 (by decide)⟩

/-! ### C7 -/

/-- Claim C7: with two methods both at position 50 and a payload longer
than 50 bytes, the emitter executes only the first method on segment
[0..50) and then breaks out of the loop (pos is not greater than the new
offset), so the run equals the run with the first method alone, followed
by the tail write [50..). -/
theorem desync_equal_pos_breaks (m1 m2 : Method) (p : List Nat) (ih : Bool)
    (ttl : Nat) (h1 : (methodPart m1).pos = 50) (h2 : (methodPart m2).pos = 50)
    (hlen : 50 < p.length) :
    desync p ⟨none, [m1, m2]⟩ ih ttl = desync p ⟨none, [m1]⟩ ih ttl ∧
      desync p ⟨none, [m1, m2]⟩ ih ttl
        = some (p, (applyMethod m1 p 0 ttl).2 ++ [Ev.write (p.drop 50)]) := by
  rcases happ : applyMethod m1 p 0 ttl with ⟨buf1, evs1⟩
  have hb : buf1 = p := by
    have := applyMethod_fst m1 p 0 ttl
    rw [happ] at this
    exact this
  subst hb
  have hguard1 : ¬((methodPart m1).pos ≤ 0 ∨ buf1.length ≤ (methodPart m1).pos) := by
    rw [h1]
    omega
  have hloop2 : desyncLoop [m2] buf1 (methodPart m1).pos ttl
      = (buf1, (methodPart m1).pos, []) := by
    rw [desyncLoop]
    rw [if_pos]
    rw [h1, h2]
    omega
  have hloop1 : desyncLoop [m1] buf1 0 ttl = (buf1, (methodPart m1).pos, evs1) := by
    rw [desyncLoop, if_neg hguard1, happ]
    dsimp only
    rw [desyncLoop]
    simp
  have hloop12 : desyncLoop [m1, m2] buf1 0 ttl = (buf1, (methodPart m1).pos, evs1) := by
    rw [desyncLoop, if_neg hguard1, happ]
    dsimp only
    rw [hloop2]
    simp
  have hstage12 : tlsStage buf1 ⟨none, [m1, m2]⟩ ih = some buf1 := rfl
  have hstage1 : tlsStage buf1 ⟨none, [m1]⟩ ih = some buf1 := rfl
  constructor
  · rw [desync, desync, hstage12, hstage1, Option.some_bind, Option.some_bind]
    dsimp only
    rw [hloop12, hloop1]
  · rw [desync, hstage12, Option.some_bind]
    dsimp only
    rw [hloop12]
    dsimp only
    rw [if_pos (show (methodPart m1).pos < buf1.length by rw [h1]; exact hlen), h1]

theorem desync_equal_pos_breaks_witness :
    (methodPart (Method.disorder ⟨50, none⟩)).pos = 50 ∧
      (methodPart (Method.split ⟨50, none⟩)).pos = 50 ∧
      50 < (List.range 51).length ∧
      (desync (List.range 51)
            ⟨none, [Method.disorder ⟨50, none⟩, Method.split ⟨50, none⟩]⟩ false 64
          = desync (List.range 51) ⟨none, [Method.disorder ⟨50, none⟩]⟩ false 64 ∧
        desync (List.range 51)
            ⟨none, [Method.disorder ⟨50, none⟩, Method.split ⟨50, none⟩]⟩ false 64
          = some (List.range 51,
              (applyMethod (Method.disorder ⟨50, none⟩) (List.range 51) 0 64).2
                ++ [Ev.write ((List.range 51).drop 50)])) :=
  ⟨rfl, rfl, by decide,
    desync_equal_pos_breaks (Method.disorder ⟨50, none⟩) (Method.split ⟨50, none⟩)
      (List.range 51) false 64 rfl rfl (by decide)⟩

/-! ### C8 -/

lemma take_succ_set (l : List Nat) (j c : Nat) (h : j < l.length) :
    (l.set j c).take (j + 1) = l.take j ++ [c] := by
  rw [List.take_succ, List.set_take,
    List.set_eq_of_length_le (by simp [List.length_take])]
  have : (l.set j c)[j]? = some c := by
    rw [List.getElem?_set_self (by simpa using h)]
  rw [this]
  rfl

lemma slice_set_end (l : List Nat) (off pos c : Nat) (hop : off < pos)
    (hlen : pos < l.length) :
    listSlice (l.set pos c) off (pos + 1) = listSlice l off pos ++ [c] := by
  rw [listSlice, listSlice, List.drop_set, if_neg (by omega)]
  have h1 : pos + 1 - off = (pos - off) + 1 := by omega
  rw [h1, take_succ_set _ _ _ (by simp [List.length_drop]; omega)]

/-- Claim C8: an OOB method at `pos` (with offset < pos < len) sends the
out-of-band segment `P[offset..pos] ++ [0x61]` and leaves the in-memory
buffer restored to its prior contents; in a full run with a single OOB
method the subsequent tail write `P[pos..]` then re-sends the original
byte at `pos` in-band. -/
theorem oob_sends_modified_restores (buf : List Nat) (off pos ttl : Nat)
    (hop : off < pos) (hlen : pos < buf.length) :
    applyMethod (Method.oob ⟨pos, none⟩) buf off ttl
        = (buf, [Ev.oob (listSlice buf off pos ++ [0x61])]) ∧
      desync buf ⟨none, [Method.oob ⟨pos, none⟩]⟩ false ttl
        = some (buf, [Ev.oob (listSlice buf 0 pos ++ [0x61]),
            Ev.write (buf.drop pos)]) ∧
      (buf.drop pos).getD 0 0 = buf.getD pos 0 := by
  have happly : ∀ o, o < pos → applyMethod (Method.oob ⟨pos, none⟩) buf o ttl
      = (buf, [Ev.oob (listSlice buf o pos ++ [0x61])]) := by
    intro o ho
    dsimp only [applyMethod]
    rw [List.set_set, set_getD_self, slice_set_end buf o pos 0x61 ho hlen]
  refine ⟨happly off hop, ?_, ?_⟩
  · have hstage : tlsStage buf ⟨none, [Method.oob ⟨pos, none⟩]⟩ false = some buf := rfl
    rw [desync, hstage, Option.some_bind]
    dsimp only
    have hguard : ¬((methodPart (Method.oob ⟨pos, none⟩)).pos ≤ 0
        ∨ buf.length ≤ (methodPart (Method.oob ⟨pos, none⟩)).pos) := by
      dsimp only [methodPart]
      omega
    rw [desyncLoop, if_neg hguard, happly 0 (by omega)]
    dsimp only
    rw [desyncLoop]
    dsimp only [methodPart]
    rw [if_pos hlen]
    rfl
  · simp only [List.getD_eq_getElem?_getD, List.getElem?_drop, Nat.add_zero]

theorem oob_sends_modified_restores_witness :
    2 < 10 ∧ 10 < (List.range 20).length ∧
      (applyMethod (Method.oob ⟨10, none⟩) (List.range 20) 2 64
          = (List.range 20, [Ev.oob (listSlice (List.range 20) 2 10 ++ [0x61])]) ∧
        desync (List.range 20) ⟨none, [Method.oob ⟨10, none⟩]⟩ false 64
          = some (List.range 20, [Ev.oob (listSlice (List.range 20) 0 10 ++ [0x61]),
              Ev.write ((List.range 20).drop 10)]) ∧
        ((List.range 20).drop 10).getD 0 0 = (List.range 20).getD 10 0) :=
  ⟨by decide, by decide,
    oob_sends_modified_restores (List.range 20) 2 10 64 (by decide) (by decide)⟩

/-! ### C3 -/

/-- Claim C3, amended: with methods at positions 20, 50 and 80 (as
built and descending-sorted by main) and a payload longer than 80 bytes,
the emitter applies only the method with the largest position: it writes
segment [0..80), flushes, and then writes the tail [80..); the methods
at 50 and 20 are skipped because the descending sort makes the loop
break at pos <= offset. -/
theorem desync_descending_largest_only (p : List Nat) (ttl : Nat)
    (h : 80 < p.length) :
    mkMethods (some 50) (some 80) (some 20)
        = [Method.split ⟨80, none⟩, Method.disorder ⟨50, none⟩,
            Method.oob ⟨20, none⟩] ∧
      desync p ⟨none, mkMethods (some 50) (some 80) (some 20)⟩ false ttl
        = some (p, [Ev.write (listSlice p 0 80), Ev.flush, Ev.write (p.drop 80)]) := by
  have hstage : tlsStage p ⟨none, mkMethods (some 50) (some 80) (some 20)⟩ false
      = some p := rfl
  have hloop2 : desyncLoop [Method.disorder ⟨50, none⟩, Method.oob ⟨20, none⟩]
      p 80 ttl = (p, 80, []) := by
    rw [desyncLoop, if_pos]
    dsimp only [methodPart]
    omega
  have hloop : desyncLoop (mkMethods (some 50) (some 80) (some 20)) p 0 ttl
      = (p, 80, [Ev.write (listSlice p 0 80), Ev.flush]) := by
    show desyncLoop [Method.split ⟨80, none⟩, Method.disorder ⟨50, none⟩,
      Method.oob ⟨20, none⟩] p 0 ttl = _
    rw [desyncLoop, if_neg (by dsimp only [methodPart]; omega)]
    dsimp only [applyMethod, methodPart]
    rw [hloop2]
    simp
  refine ⟨rfl, ?_⟩
  rw [desync, hstage, Option.some_bind]
  dsimp only
  rw [hloop]
  dsimp only
  rw [if_pos h]
  simp

/-- Claim C3, counterexample: for an 81-byte payload and methods at
positions 20, 50, 80, the emitted trace has its only boundary at byte
80; no segment [0..20) or [0..50) is ever written, contradicting the
claimed boundaries 20, then 50, then 80. -/
theorem desync_positions_cex :
    desync (List.range 81) ⟨none, mkMethods (some 50) (some 80) (some 20)⟩ false 64
        = some (List.range 81,
            [Ev.write ((List.range 81).take 80), Ev.flush, Ev.write [80]]) ∧
      Ev.write ((List.range 81).take 20)
          ∉ [Ev.write ((List.range 81).take 80), Ev.flush, Ev.write [80]] ∧
      Ev.write ((List.range 81).take 50)
          ∉ [Ev.write ((List.range 81).take 80), Ev.flush, Ev.write [80]] := by
  refine ⟨by decide, by decide, by decide⟩

theorem desync_descending_largest_only_witness :
    80 < (List.range 81).length ∧
      (mkMethods (some 50) (some 80) (some 20)
          = [Method.split ⟨80, none⟩, Method.disorder ⟨50, none⟩,
              Method.oob ⟨20, none⟩] ∧
        desync (List.range 81) ⟨none, mkMethods (some 50) (some 80) (some 20)⟩
            false 64
          = some (List.range 81,
              [Ev.write (listSlice (List.range 81) 0 80), Ev.flush,
                Ev.write ((List.range 81).drop 80)])) :=
  ⟨by decide, desync_descending_largest_only (List.range 81) 64 (by decide)⟩

/-! ### C1 -/

/-- Claim C1: the code being checked.  On the buffer "GET \xFF", which
begins with a canonical HTTP method name but is not valid UTF-8, is_http
does not return None: the `str::from_utf8(buffer).unwrap()` on
src/packets.rs line 21 panics (modelled as the outer `none`). -/
theorem isHttp_invalid_utf8_panics :
    validUtf8 [71, 69, 84, 32, 255] = false ∧
      isHttp [71, 69, 84, 32, 255] = none := by
  refine ⟨by decide, by decide⟩

/-! ### C4 -/

lemma findSub_pair_first (p : List Nat) (i : Nat)
    (hpair : i + 1 < p.length ∧ p.getD i 1 = 0 ∧ p.getD (i + 1) 1 = 0)
    (hfirst : ∀ j, j < i →
      ¬(j + 1 < p.length ∧ p.getD j 1 = 0 ∧ p.getD (j + 1) 1 = 0)) :
    findSub [0, 0] p = some i := by
  induction p generalizing i with
  | nil => simp at hpair
  | cons a rest ih =>
    cases i with
    | zero =>
      rcases hpair with ⟨hl, h0, h1⟩
      cases rest with
      | nil => simp at hl
      | cons b r2 =>
        simp only [List.getD_cons_zero, List.getD_cons_succ] at h0 h1
        subst h0
        subst h1
        rw [findSub,
          if_pos (show ([0, 0] : List Nat).isPrefixOf (0 :: 0 :: r2) = true by
            simp [List.isPrefixOf])]
    | succ j =>
      have hnot0 : ¬([0, 0].isPrefixOf (a :: rest) = true) := by
        intro hpf
        cases rest with
        | nil => simp [List.isPrefixOf] at hpf
        | cons b r2 =>
          simp only [List.isPrefixOf, Bool.and_eq_true, beq_iff_eq] at hpf
          rcases hpf with ⟨ha, hb, -⟩
          exact hfirst 0 (Nat.succ_pos j)
            ⟨by simp, by simp [ha.symm], by simp [hb.symm]⟩
      rw [findSub, if_neg hnot0, ih j]
      · rfl
      · exact ⟨by simpa using hpair.1, by simpa using hpair.2.1,
          by simpa using hpair.2.2⟩
      · intro j2 hj2
        have := hfirst (j2 + 1) (by omega)
        intro hc
        exact this ⟨by simpa using hc.1, by simpa using hc.2.1,
          by simpa using hc.2.2⟩

/-- Claim C4, amended: for a buffer with the ClientHello header shape,
is_tls_hello returns Some(i + 9) where i is the index of the first
0x00 0x00 pair anywhere in the buffer - the memmem search is not
restricted to indices after byte 5 (an earlier pair can sit at index 2
or 3 inside the record-length field). -/
theorem isTlsHello_anchor (p : List Nat) (i : Nat)
    (hlen : 5 < p.length) (hdr : p.take 2 = [0x16, 0x03])
    (h5 : p.getD 5 0 = 0x01)
    (hpair : i + 1 < p.length ∧ p.getD i 1 = 0 ∧ p.getD (i + 1) 1 = 0)
    (hfirst : ∀ j, j < i →
      ¬(j + 1 < p.length ∧ p.getD j 1 = 0 ∧ p.getD (j + 1) 1 = 0)) :
    isTlsHello p = some (i + 9) := by
  rw [isTlsHello, if_pos ⟨hlen, hdr, h5⟩, findSub_pair_first p i hpair hfirst]
  rfl

/-- Claim C4, counterexample: the buffer 16 03 00 00 05 01 00 00 has
its first pair after byte 5 at index 6, so the claim demands
Some(6 + 9) = Some 15; the code finds the pair at index 2 (inside the
length field) and returns Some 11. -/
theorem isTlsHello_early_pair_cex :
    isTlsHello [0x16, 0x03, 0x00, 0x00, 0x05, 0x01, 0x00, 0x00] = some 11 ∧
      ([0x16, 0x03, 0x00, 0x00, 0x05, 0x01, 0x00, 0x00] : List Nat).getD 6 1 = 0 ∧
      ([0x16, 0x03, 0x00, 0x00, 0x05, 0x01, 0x00, 0x00] : List Nat).getD 7 1 = 0 ∧
      (11 : Nat) ≠ 6 + 9 := by
  refine ⟨by decide, by decide, by decide, by decide⟩

theorem isTlsHello_anchor_witness :
    isTlsHello [0x16, 0x03, 0x01, 0x00, 0xC3, 0x01, 0x00, 0x00] = some (6 + 9) :=
  isTlsHello_anchor [0x16, 0x03, 0x01, 0x00, 0xC3, 0x01, 0x00, 0x00] 6
    (by decide) (by decide) (by decide) (by decide) (by decide)

/-! ### C6 -/

lemma validUtf8_of_ascii (l : List Nat) (h : ∀ b ∈ l, b < 128) :
    validUtf8 l = true := by
  induction l with
  | nil => rfl
  | cons b rest ih =>
    have hb : b ≤ 0x7F := by
      have := h b (by simp)
      omega
    rw [validUtf8, validUtf8Aux, contRanges, if_pos hb]
    exact ih fun x hx => h x (by simp [hx])

lemma firstNonSpace_replicate (k b : Nat) (l : List Nat) (hb : b ≠ 32) :
    firstNonSpace (List.replicate k 32 ++ b :: l) = some k := by
  induction k with
  | zero => simp [firstNonSpace, hb]
  | succ n ihn =>
    rw [List.replicate_succ, List.cons_append, firstNonSpace, if_pos rfl, ihn]
    rfl

/-- Claim C6, amended: for an ASCII buffer that begins with one of the
nine canonical HTTP methods and whose FIRST case-insensitive occurrence
of "\nhost:" is followed by k spaces and then "example.com", is_http
returns the byte offset of the 'e' that starts "example.com". -/
theorem isHttp_host_anchor (buffer : List Nat) (i k : Nat) (tail : List Nat)
    (hascii : ∀ b ∈ buffer, b < 128)
    (hm : httpMethods.any (fun m => m.isPrefixOf buffer) = true)
    (hfind : findSub nhostBytes (buffer.map asciiLower) = some i)
    (hafter : buffer.drop (i + 6)
      = List.replicate k 32
          ++ [101, 120, 97, 109, 112, 108, 101, 46, 99, 111, 109] ++ tail) :
    isHttp buffer = some (some (i + 6 + k)) ∧
      listSlice buffer (i + 6 + k) (i + 6 + k + 11)
        = [101, 120, 97, 109, 112, 108, 101, 46, 99, 111, 109] := by
  have hdrop : buffer.drop (i + 6)
      = List.replicate k 32
          ++ 101 :: 120 :: 97 :: 109 :: 112 :: 108 :: 101 :: 46 :: 99 :: 111
            :: 109 :: tail := by
    rw [hafter, List.append_assoc]
    rfl
  constructor
  · rw [isHttp, if_pos hm, if_pos (validUtf8_of_ascii buffer hascii), hfind]
    dsimp only [Option.map]
    rw [hdrop, firstNonSpace_replicate k 101 _ (by omega)]
  · have h1 : buffer.drop (i + 6 + k)
        = 101 :: 120 :: 97 :: 109 :: 112 :: 108 :: 101 :: 46 :: 99 :: 111
            :: 109 :: tail := by
      rw [← List.drop_drop, hdrop, List.drop_left' (List.length_replicate k 32)]
    rw [listSlice, h1, show i + 6 + k + 11 - (i + 6 + k) = 11 by omega]
    rfl

/-- Claim C6, counterexample: the buffer "GET /\nhost:x\nHost:
example.com" begins with GET and contains "\nHost: example.com", whose
'e' is at byte offset 19; but the code anchors on the FIRST
case-insensitive "\nhost:" (the one at byte 5 inside the request path)
and returns Some 11 instead. -/
theorem isHttp_host_anchor_cex :
    isHttp [71, 69, 84, 32, 47, 10, 104, 111, 115, 116, 58, 120, 10, 72, 111,
        115, 116, 58, 32, 101, 120, 97, 109, 112, 108, 101, 46, 99, 111, 109]
      = some (some 11) ∧
      listSlice [71, 69, 84, 32, 47, 10, 104, 111, 115, 116, 58, 120, 10, 72,
          111, 115, 116, 58, 32, 101, 120, 97, 109, 112, 108, 101, 46, 99, 111,
          109] 19 30
        = [101, 120, 97, 109, 112, 108, 101, 46, 99, 111, 109] ∧
      (11 : Nat) ≠ 19 := by
  refine ⟨by decide, by decide, by decide⟩

theorem isHttp_host_anchor_witness :
    isHttp [71, 69, 84, 32, 47, 10, 72, 111, 115, 116, 58, 32, 101, 120, 97,
        109, 112, 108, 101, 46, 99, 111, 109] = some (some (5 + 6 + 1)) ∧
      listSlice [71, 69, 84, 32, 47, 10, 72, 111, 115, 116, 58, 32, 101, 120,
          97, 109, 112, 108, 101, 46, 99, 111, 109] (5 + 6 + 1) (5 + 6 + 1 + 11)
        = [101, 120, 97, 109, 112, 108, 101, 46, 99, 111, 109] :=
  isHttp_host_anchor _ 5 1 [] (by decide) (by decide) (by decide) (by decide)

/-! ### C5 -/

lemma convert_htons_eq (x : Nat) (hx : x < 65536) :
    convertU16 (htons x) = [x / 256, x % 256] := by
  have hx256 : x / 256 < 256 := by omega
  have hxm : x % 256 < 256 := by omega
  rw [convertU16, htons, Nat.mod_eq_of_lt hx]
  have e1 : (x % 256 * 256 + x / 256) % 256 = x / 256 := by
    rw [Nat.mul_comm (x % 256) 256, Nat.mul_add_mod, Nat.mod_eq_of_lt hx256]
  have e2 : (x % 256 * 256 + x / 256) / 256 % 256 = x % 256 := by
    rw [Nat.mul_comm (x % 256) 256, Nat.mul_add_div (by omega),
      Nat.div_eq_of_lt hx256, Nat.add_zero, Nat.mod_eq_of_lt hxm]
  rw [e1, e2]

lemma wrappingSub16_eq (a b : Nat) (hba : b ≤ a) (ha : a < 65536) :
    wrappingSub16 a b = a - b := by
  rw [wrappingSub16]
  omega

lemma getD_drop (l : List Nat) (n m : Nat) :
    (l.drop n).getD m 0 = l.getD (n + m) 0 := by
  induction l generalizing n with
  | nil => simp
  | cons a t ih =>
    cases n with
    | zero => simp
    | succ k =>
      rw [List.drop_succ_cons, ih, show k + 1 + m = (k + m) + 1 by omega,
        List.getD_cons_succ]

lemma partTls_append (b0 b1 b2 b3 b4 : Nat) (t v : List Nat) (pos : Nat)
    (hpos : 0 < pos) (hT : t.length = pos) (h3 : b3 < 256) (h4 : b4 < 256)
    (hR : pos < 256 * b3 + b4) :
    partTls (b0 :: b1 :: b2 :: b3 :: b4 :: (t ++ v)) pos
      = some (b0 :: b1 :: b2 :: (pos / 256) :: (pos % 256) ::
          (t ++ b0 :: b1 :: b2 :: ((256 * b3 + b4 - pos) / 256) ::
            ((256 * b3 + b4 - pos) % 256) :: v)) := by
  have hl5 : ¬((b0 :: b1 :: b2 :: b3 :: b4 :: (t ++ v)).length < 5) := by
    simp
  have hl5p : ¬((b0 :: b1 :: b2 :: b3 :: b4 :: (t ++ v)).length < 5 + pos) := by
    simp
    omega
  rw [partTls, if_neg hl5]
  dsimp only
  rw [if_neg hl5p]
  have hg3 : (b0 :: b1 :: b2 :: b3 :: b4 :: (t ++ v)).getD 3 0 = b3 := rfl
  have hg4 : (b0 :: b1 :: b2 :: b3 :: b4 :: (t ++ v)).getD 4 0 = b4 := rfl
  rw [hg3, hg4, Nat.mod_eq_of_lt h3, Nat.mod_eq_of_lt h4]
  have hplt : pos < 65536 := by omega
  rw [Nat.mod_eq_of_lt hplt,
    wrappingSub16_eq (256 * b3 + b4) pos (Nat.le_of_lt hR) (by omega),
    convert_htons_eq (256 * b3 + b4 - pos) (by omega),
    convert_htons_eq pos hplt]
  have hA : (b0 :: b1 :: b2 :: b3 :: b4 :: (t ++ v)).take (5 + pos)
      = b0 :: b1 :: b2 :: b3 :: b4 :: t := by
    rw [List.take_add]
    have : ((b0 :: b1 :: b2 :: b3 :: b4 :: (t ++ v)).drop 5).take pos
        = (t ++ v).take pos := rfl
    rw [this, List.take_left' hT]
    rfl
  have hV : (b0 :: b1 :: b2 :: b3 :: b4 :: (t ++ v)).drop (5 + pos)
      = v := by
    rw [← List.drop_drop]
    have : (b0 :: b1 :: b2 :: b3 :: b4 :: (t ++ v)).drop 5 = t ++ v := rfl
    rw [this, List.drop_left' hT]
  have h3take : (b0 :: b1 :: b2 :: b3 :: b4 :: (t ++ v)).take 3
      = [b0, b1, b2] := rfl
  rw [hA, hV, h3take]
  have hAlen : ((b0 :: b1 :: b2 :: b3 :: b4 :: t) ++ [b0, b1, b2]).length
      = 8 + pos := by
    simp
    omega
  rw [List.take_left' hAlen, List.drop_left' hAlen]
  simp only [List.cons_append, List.nil_append, List.append_assoc]
  rfl

/-- Claim C5: full specification of the TLS record split on valid
inputs (0 < pos < R and 5 + pos at most the buffer length): `part_tls`
grows the buffer by exactly 5 bytes, keeps bytes 0..3, rewrites the
big-endian length field at 3..5 to `pos`, keeps the payload prefix
5..5+pos, re-inserts header bytes 0..3 at 5+pos, writes big-endian
`R - pos` at 8+pos..10+pos, and keeps the remaining bytes. -/
theorem partTls_spec (p : List Nat) (pos : Nat)
    (h3 : p.getD 3 0 < 256) (h4 : p.getD 4 0 < 256) (hpos : 0 < pos)
    (hR : pos < 256 * p.getD 3 0 + p.getD 4 0) (hlen : 5 + pos ≤ p.length) :
    ∃ out, partTls p pos = some out
      ∧ out.length = p.length + 5
      ∧ out.take 3 = p.take 3
      ∧ 256 * out.getD 3 0 + out.getD 4 0 = pos
      ∧ listSlice out 5 (5 + pos) = listSlice p 5 (5 + pos)
      ∧ listSlice out (5 + pos) (8 + pos) = p.take 3
      ∧ 256 * out.getD (8 + pos) 0 + out.getD (9 + pos) 0
          = 256 * p.getD 3 0 + p.getD 4 0 - pos
      ∧ out.drop (10 + pos) = p.drop (5 + pos) := by
  obtain ⟨b0, b1, b2, b3, b4, tl, rfl⟩ :
      ∃ b0 b1 b2 b3 b4 tl, p = b0 :: b1 :: b2 :: b3 :: b4 :: tl := by
    rcases p with _ | ⟨b0, p⟩
    · simp at hlen
    rcases p with _ | ⟨b1, p⟩
    · simp at hlen; omega
    rcases p with _ | ⟨b2, p⟩
    · simp at hlen; omega
    rcases p with _ | ⟨b3, p⟩
    · simp at hlen; omega
    rcases p with _ | ⟨b4, p⟩
    · simp at hlen; omega
    exact ⟨b0, b1, b2, b3, b4, p, rfl⟩
  have hg3 : (b0 :: b1 :: b2 :: b3 :: b4 :: tl).getD 3 0 = b3 := rfl
  have hg4 : (b0 :: b1 :: b2 :: b3 :: b4 :: tl).getD 4 0 = b4 := rfl
  rw [hg3] at h3 hR
  rw [hg4] at h4 hR
  have hptl : pos ≤ tl.length := by
    simp at hlen
    omega
  obtain ⟨t, v, rfl, hT⟩ : ∃ t v, tl = t ++ v ∧ t.length = pos :=
    ⟨tl.take pos, tl.drop pos, (List.take_append_drop pos tl).symm,
      by simp [List.length_take]; omega⟩
  rw [hg3, hg4]
  refine ⟨_, partTls_append b0 b1 b2 b3 b4 t v pos hpos hT h3 h4 hR, ?_, rfl,
    ?_, ?_, ?_, ?_, ?_⟩
  · simp
    omega
  · show 256 * (pos / 256) + pos % 256 = pos
    omega
  · -- listSlice out 5 (5+pos) = listSlice p 5 (5+pos)
    rw [listSlice, listSlice, Nat.add_sub_cancel_left]
    have hd1 : (b0 :: b1 :: b2 :: (pos / 256) :: (pos % 256) ::
        (t ++ b0 :: b1 :: b2 :: ((256 * b3 + b4 - pos) / 256) ::
          ((256 * b3 + b4 - pos) % 256) :: v)).drop 5
        = t ++ b0 :: b1 :: b2 :: ((256 * b3 + b4 - pos) / 256) ::
            ((256 * b3 + b4 - pos) % 256) :: v := rfl
    have hd2 : (b0 :: b1 :: b2 :: b3 :: b4 :: (t ++ v)).drop 5 = t ++ v := rfl
    rw [hd1, hd2, List.take_left' hT, List.take_left' hT]
  · -- listSlice out (5+pos) (8+pos) = p.take 3
    rw [listSlice, show 8 + pos - (5 + pos) = 3 by omega, ← List.drop_drop]
    have hd1 : (b0 :: b1 :: b2 :: (pos / 256) :: (pos % 256) ::
        (t ++ b0 :: b1 :: b2 :: ((256 * b3 + b4 - pos) / 256) ::
          ((256 * b3 + b4 - pos) % 256) :: v)).drop 5
        = t ++ b0 :: b1 :: b2 :: ((256 * b3 + b4 - pos) / 256) ::
            ((256 * b3 + b4 - pos) % 256) :: v := rfl
    rw [hd1, List.drop_left' hT]
    rfl
  · -- big-endian u16 at 8+pos equals R - pos
    have hdp : (b0 :: b1 :: b2 :: (pos / 256) :: (pos % 256) ::
        (t ++ b0 :: b1 :: b2 :: ((256 * b3 + b4 - pos) / 256) ::
          ((256 * b3 + b4 - pos) % 256) :: v)).drop (5 + pos)
        = b0 :: b1 :: b2 :: ((256 * b3 + b4 - pos) / 256) ::
            ((256 * b3 + b4 - pos) % 256) :: v := by
      rw [← List.drop_drop]
      have hd1 : (b0 :: b1 :: b2 :: (pos / 256) :: (pos % 256) ::
          (t ++ b0 :: b1 :: b2 :: ((256 * b3 + b4 - pos) / 256) ::
            ((256 * b3 + b4 - pos) % 256) :: v)).drop 5
          = t ++ b0 :: b1 :: b2 :: ((256 * b3 + b4 - pos) / 256) ::
              ((256 * b3 + b4 - pos) % 256) :: v := rfl
      rw [hd1, List.drop_left' hT]
    have hg8 : (b0 :: b1 :: b2 :: (pos / 256) :: (pos % 256) ::
        (t ++ b0 :: b1 :: b2 :: ((256 * b3 + b4 - pos) / 256) ::
          ((256 * b3 + b4 - pos) % 256) :: v)).getD (8 + pos) 0
        = (256 * b3 + b4 - pos) / 256 := by
      rw [show 8 + pos = (5 + pos) + 3 by omega, ← getD_drop, hdp]
      rfl
    have hg9 : (b0 :: b1 :: b2 :: (pos / 256) :: (pos % 256) ::
        (t ++ b0 :: b1 :: b2 :: ((256 * b3 + b4 - pos) / 256) ::
          ((256 * b3 + b4 - pos) % 256) :: v)).getD (9 + pos) 0
        = (256 * b3 + b4 - pos) % 256 := by
      rw [show 9 + pos = (5 + pos) + 4 by omega, ← getD_drop, hdp]
      rfl
    rw [hg8, hg9]
    omega
  · -- out.drop (10+pos) = p.drop (5+pos)
    have hdpOut : (b0 :: b1 :: b2 :: (pos / 256) :: (pos % 256) ::
        (t ++ b0 :: b1 :: b2 :: ((256 * b3 + b4 - pos) / 256) ::
          ((256 * b3 + b4 - pos) % 256) :: v)).drop (5 + pos)
        = b0 :: b1 :: b2 :: ((256 * b3 + b4 - pos) / 256) ::
            ((256 * b3 + b4 - pos) % 256) :: v := by
      rw [← List.drop_drop]
      have hd1 : (b0 :: b1 :: b2 :: (pos / 256) :: (pos % 256) ::
          (t ++ b0 :: b1 :: b2 :: ((256 * b3 + b4 - pos) / 256) ::
            ((256 * b3 + b4 - pos) % 256) :: v)).drop 5
          = t ++ b0 :: b1 :: b2 :: ((256 * b3 + b4 - pos) / 256) ::
              ((256 * b3 + b4 - pos) % 256) :: v := rfl
      rw [hd1, List.drop_left' hT]
    have hdpP : (b0 :: b1 :: b2 :: b3 :: b4 :: (t ++ v)).drop (5 + pos) = v := by
      rw [← List.drop_drop]
      have hd2 : (b0 :: b1 :: b2 :: b3 :: b4 :: (t ++ v)).drop 5 = t ++ v := rfl
      rw [hd2, List.drop_left' hT]
    rw [hdpP, show 10 + pos = (5 + pos) + 5 by omega, ← List.drop_drop, hdpOut]
    rfl

theorem partTls_spec_witness :
    ∃ out, partTls [0x16, 0x03, 0x01, 0x00, 0xC3, 1, 2, 3, 4, 5, 6] 2 = some out
      ∧ out.length = 16
      ∧ out.take 3
          = ([0x16, 0x03, 0x01, 0x00, 0xC3, 1, 2, 3, 4, 5, 6] : List Nat).take 3
      ∧ 256 * out.getD 3 0 + out.getD 4 0 = 2
      ∧ listSlice out 5 7
          = listSlice [0x16, 0x03, 0x01, 0x00, 0xC3, 1, 2, 3, 4, 5, 6] 5 7
      ∧ listSlice out 7 10
          = ([0x16, 0x03, 0x01, 0x00, 0xC3, 1, 2, 3, 4, 5, 6] : List Nat).take 3
      ∧ 256 * out.getD 10 0 + out.getD 11 0 = 0xC1
      ∧ out.drop 12
          = ([0x16, 0x03, 0x01, 0x00, 0xC3, 1, 2, 3, 4, 5, 6] : List Nat).drop 7 := by
  have h := partTls_spec [0x16, 0x03, 0x01, 0x00, 0xC3, 1, 2, 3, 4, 5, 6] 2
    (by decide) (by decide) (by decide) (by decide) (by decide)
  simpa using h


end RustDpi
